import Mathlib

/-!
Verification of the "Article Structure Extraction & Block Conversion Engine"
of `scripts/register-images.js` (functions `parseTwigFile`,
`parseArticleDataPattern`, `parseMacroCallPattern`, `findContentSectionsEnd`,
`extractStringValue`, `parseContentSections`, `splitTopLevelObjects`,
`extractFallbackContent`, `addParagraphs`, `buildRichTextContent`,
`parseInlineHtml`).

The JavaScript is embedded shallowly over `List Char`:
* a JS string is a `List Char` (named `Str` below);
* `String.prototype.indexOf` is `jsIndexOf` (`-1` sentinel kept as `Int`,
  since the source arithmetic on `-1` results matters);
* `String.prototype.substring` is `jsSubstring` (clamping and swapping
  exactly as in JS);
* each regular expression of the source is hand-compiled to an executable
  character-level matcher; every regex used by the source is deterministic
  (no alternative at the same start position can match simultaneously, and
  each lazy/greedy group has a unique parse), so a backtracking engine and
  the matchers below agree;
* `undefined` string fields and `''` are indistinguishable to every
  consumer in the source (both falsy, both only read through truthiness
  tests and concatenations), so absent string fields are embedded as `[]`;
  the `image` field, which is set as a pair or not at all, is an `Option`.
-/

namespace Blog

set_option maxRecDepth 40000

/-- A JavaScript string, embedded as its list of characters. -/
abbrev Str := List Char

/-- The single-quote character (the delimiter of the quasi-object literals). -/
def sq : Char := '\x27'

/-- The backslash character. -/
def bsl : Char := '\\'

/-- JS `\s` for the characters this source ever meets (space, tab, CR, LF,
vertical tab, form feed); used both for regex `\s` and for `trim`. -/
def wsChar (c : Char) : Bool :=
  c = ' ' ∨ c = '\t' ∨ c = '\n' ∨ c = '\r' ∨ c = '\x0b' ∨ c = '\x0c'

/-- Index (counted from `i`) of the first position of `s` where `pat` is a
prefix, as an absolute index; `none` when there is none. -/
def findSubAux (pat : Str) : Str → Nat → Option Nat
  | [], i => if pat = [] then some i else none
  | s@(_ :: rest), i => if pat.isPrefixOf s then some i else findSubAux pat rest (i + 1)

/-- JS `hay.indexOf(pat, start)`: `-1` when absent, with a negative `start`
clamped to `0` (as in JS). -/
def jsIndexOf (hay pat : Str) (start : Int) : Int :=
  match findSubAux pat (hay.drop start.toNat) start.toNat with
  | some i => (i : Int)
  | none => -1

/-- JS `hay.includes(pat)`. -/
def jsIncludes (hay pat : Str) : Bool :=
  (findSubAux pat hay 0).isSome

/-- JS `s.substring(a, b)`: clamp both arguments to `[0, length]`, swap when
out of order. -/
def jsSubstring (s : Str) (a b : Int) : Str :=
  let len : Int := (s.length : Int)
  let a' := max 0 (min a len)
  let b' := max 0 (min b len)
  ((s.take (max a' b').toNat).drop (min a' b').toNat)

/-- JS `s.trim()` (for the whitespace characters of `wsChar`). -/
def jsTrim (s : Str) : Str :=
  ((s.dropWhile wsChar).reverse.dropWhile wsChar).reverse

/-- JS `s.split(sep)` for a one-character separator: keeps empty segments,
also a trailing one. -/
def splitOnChar (sep : Char) : Str → List Str
  | [] => [[]]
  | c :: rest =>
    let r := splitOnChar sep rest
    if c = sep then [] :: r
    else
      match r with
      | h :: t => (c :: h) :: t
      | [] => [[c]]

/-- The depth-counting scan shared by `parseArticleDataPattern` (line 432),
`parseMacroCallPattern` (line 472), `findContentSectionsEnd` (line 580) and
`parseContentSections` (lines 639, 666, 687, 727, 756, 774):

`while (pos < len && depth > 0) { if (c === opn) depth++; else if (c === cls)
depth--; pos++; }`

Input is the text from `pos` on and the current depth; the result is the
number of characters the loop consumes. The loop reads every character,
quoted or not — it has no notion of string regions. -/
def depthScan (opn cls : Char) : Str → Nat → Nat
  | _, 0 => 0
  | [], _ + 1 => 0
  | c :: rest, d + 1 =>
    let d' := if c = opn then d + 2 else if c = cls then d else d + 1
    1 + depthScan opn cls rest d'

/-- Count of a character in a string. -/
def countCh (c : Char) (s : Str) : Nat := (s.filter (· = c)).length

/-! ### Regex building blocks

Each regular expression of the source is compiled to a matcher built from
the primitives below. A matcher consumes from the head of its input and
returns what remains (plus captured groups); `firstMatch` turns an anchored
matcher into the unanchored leftmost search of `String.prototype.match`. -/

/-- Consume the literal `pat`. -/
def expectLit (pat s : Str) : Option Str :=
  if pat.isPrefixOf s then some (s.drop pat.length) else none

/-- Consume exactly the character `c`. -/
def expectChar (c : Char) : Str → Option Str
  | [] => none
  | c' :: rest => if c' = c then some rest else none

/-- Regex `\s*` (greedy; all uses are followed by a non-whitespace literal,
so the greedy consumption is the unique parse). -/
def skipWs (s : Str) : Str := s.dropWhile wsChar

/-- Regex `\s+` followed by nothing-whitespace: one mandatory whitespace
character, then `\s*`. -/
def ws1 : Str → Option Str
  | [] => none
  | c :: rest => if wsChar c then some (skipWs rest) else none

/-- Regex `([^c]*)c`: capture up to the first `c`, consume the `c`;
fails if `c` does not occur. -/
def scanTo (c : Char) (s : Str) : Option (Str × Str) :=
  let v := s.takeWhile (· ≠ c)
  match s.dropWhile (· ≠ c) with
  | c' :: rest => if c' = c then some (v, rest) else none
  | [] => none

/-- Regex `((?:[^'\\]|\\.)*)'` from just after an opening quote: the body of
a single-quoted string with escapes kept, and the text after the closing
quote. The group is deterministic: it can only end where an unescaped quote
stands, and the scan stops at the first one, so there is nothing for a
backtracking engine to revisit. `none` when the quote is never closed. -/
def scanQuotedBody : Str → Option (Str × Str)
  | [] => none
  | c :: rest =>
    if c = bsl then
      match rest with
      | [] => none
      | e :: rest' => (scanQuotedBody rest').map (fun br => (c :: e :: br.1, br.2))
    else if c = sq then some ([], rest)
    else (scanQuotedBody rest).map (fun br => (c :: br.1, br.2))

/-- Leftmost unanchored search: try the anchored matcher at every suffix,
as a backtracking engine does after a failed anchored attempt. -/
def firstMatch (f : Str → Option α) : Str → Option α
  | [] => f []
  | s@(_ :: rest) =>
    match f s with
    | some a => some a
    | none => firstMatch f rest

/-- Lazy group `([\s\S]*?)` up to the first suffix accepted by `p`: the
captured text before that suffix, and what `p` leaves of it. -/
def lazyFindP (p : Str → Option Str) : Str → Option (Str × Str)
  | [] => (p []).map (fun r => (([] : Str), r))
  | s@(c :: rest) =>
    match p s with
    | some r => some ([], r)
    | none => (lazyFindP p rest).map (fun br => (c :: br.1, br.2))

/-- `.replace(/\\'/g, "'")` (lines 494, 507, 514, 600, 699, 785, 805, 932, 974). -/
def unescapeQuotes : Str → Str
  | [] => []
  | [c] => [c]
  | c :: e :: rest =>
    if c = bsl ∧ e = sq then sq :: unescapeQuotes rest
    else c :: unescapeQuotes (e :: rest)

/-- `.replace(/\\n/g, '\n')` (line 600). -/
def unescapeNewlines : Str → Str
  | [] => []
  | [c] => [c]
  | c :: e :: rest =>
    if c = bsl ∧ e = 'n' then '\n' :: unescapeNewlines rest
    else c :: unescapeNewlines (e :: rest)

/-- The single-quoted form of a key, `'key'`. -/
def quoted (k : Str) : Str := sq :: k ++ [sq]

/-! ### String/Value Extractor — `extractStringValue` (lines 595-603) -/

/-- The anchored regex `'key'\s*:\s*'((?:[^'\\]|\\.)*)'` at the head of
`s`: the raw captured group. -/
def matchKeyedAt (key : Str) (s : Str) : Option Str := do
  let r1 ← expectLit (quoted key) s
  let r2 ← expectChar ':' (skipWs r1)
  let r3 ← expectChar sq (skipWs r2)
  let (body, _) ← scanQuotedBody r3
  pure body

/-- `extractStringValue(text, key)`: the first `'key' : 'value'` occurrence,
unescaped (`\'` to `'` first, then `\n` to a newline); `''` when the pattern
is absent. -/
def extractStringValue (text key : Str) : Str :=
  match firstMatch (matchKeyedAt key) text with
  | some body => unescapeNewlines (unescapeQuotes body)
  | none => []

/-! ### Data model (the shapes the extractor builds) -/

/-- One `{href, title}` table-of-contents entry. -/
structure TocItem where
  href : Str
  title : Str
  deriving DecidableEq

/-- One `{title, items, ordered}` list object. -/
structure ContentList where
  title : Str
  ordered : Bool
  items : List Str
  deriving DecidableEq

/-- One subsection object (`subheading`, `content`, `additional_content`,
optional `image`, `lists`). -/
structure Subsection where
  subheading : Str := []
  content : Str := []
  additionalContent : Str := []
  image : Option (Str × Str) := none
  lists : List ContentList := []
  deriving DecidableEq

/-- One section object of `content_sections`. -/
structure Section where
  id : Str := []
  heading : Str := []
  content : Str := []
  additionalContent : Str := []
  lists : List ContentList := []
  image : Option (Str × Str) := none
  subsections : List Subsection := []
  deriving DecidableEq

/-- The `result` object `parseTwigFile` builds (string fields absent or
`''`, see the header note; `imagePath` is set only on an `asset(...)`
match, so it is an `Option`). -/
structure ParsedArticle where
  metaTitle : Str := []
  metaDescription : Str := []
  title : Str := []
  imagePath : Option Str := none
  imageAlt : Str := []
  introText : Str := []
  tocItems : List TocItem := []
  contentSections : List Section := []
  conclusion : Str := []
  rawHtml : Str := []
  deriving DecidableEq

/-! ### `splitTopLevelObjects` (lines 828-847) -/

/-- The loop of `splitTopLevelObjects`: `s` is the whole string, the second
argument the characters still to visit, then the loop variables `i`,
`depth` (an Int: a stray `}` drives it negative, exactly as in JS), `start`
(`-1` when unset) and the collected objects. -/
def splitTLOGo (s : Str) : Str → Nat → Int → Int → List Str → List Str
  | [], _, _, _, acc => acc
  | c :: rest, i, depth, start, acc =>
    if c = '\x7b' then
      let start' := if depth = 0 then (i : Int) else start
      splitTLOGo s rest (i + 1) (depth + 1) start' acc
    else if c = '\x7d' then
      let depth' := depth - 1
      if depth' = 0 ∧ start ≠ -1 then
        splitTLOGo s rest (i + 1) depth' (-1) (acc ++ [jsSubstring s start ((i : Int) + 1)])
      else splitTLOGo s rest (i + 1) depth' start acc
    else splitTLOGo s rest (i + 1) depth start acc

/-- `splitTopLevelObjects(str)`: the top-level `{...}` spans, in order. -/
def splitTopLevelObjects (s : Str) : List Str :=
  splitTLOGo s s 0 0 (-1) []

/-! ### Scanning over quoted strings by count

`findContentSectionsEnd` (lines 562-573) and the pattern-2 branch of
`parseContentSections` (lines 620-630) contain the same loop: walk the
text toggling an in-string flag at each `'` not preceded by `\`, counting
closed strings, and stop once `target` strings were closed (or at the
end). -/

/-- The loop body; arguments: remaining text, previous character (`none`
at index 0), `inString`, `stringCount`, `target`, current index `i`. -/
def skipStringsGo : Str → Option Char → Bool → Nat → Nat → Nat → Nat
  | [], _, _, _, _, i => i
  | c :: rest, prev, inStr, cnt, target, i =>
    if target ≤ cnt then i
    else if c = sq ∧ prev ≠ some bsl then
      let inStr' := !inStr
      skipStringsGo rest (some c) inStr' (if inStr' then cnt else cnt + 1) target (i + 1)
    else skipStringsGo rest (some c) inStr cnt target (i + 1)

/-- Index just after the `target`-th complete quoted string (or the length
of `s` when there are fewer). -/
def skipNStrings (s : Str) (target : Nat) : Nat :=
  skipStringsGo s none false 0 target 0

/-- `while (i < len && s[i] !== c) i++` from index `i`: the index of the
first `c` at or after `i`, or `s.length`. -/
def findCharFrom (c : Char) (s : Str) (i : Nat) : Nat :=
  i + ((s.drop i).takeWhile (· ≠ c)).length

/-- `findContentSectionsEnd(text)` (lines 558-589): skip the four leading
string arguments, find the next `[`, and return the index one past its
(quote-blind) matching `]`; `-1` when no `[` follows. -/
def findContentSectionsEnd (text : Str) : Int :=
  let i := skipNStrings text 4
  let j := findCharFrom '[' text i
  if text.length ≤ j then -1
  else (j : Int) + 1 + (depthScan '[' ']' (text.drop (j + 1)) 1 : Int)

/-! ### List-item extraction (lines 696-703, 782-789, 802-807) -/

/-- The loop `while ((m = /'((?:[^'\\]|\\.)*)'/g.exec(str)) !== null)`: all
raw (still escaped) bodies of quoted strings, in order. A failed attempt at
some quote means the scan ran off the end of the text, and then every later
attempt does too (it resumes at a quote the failed scan consumed as the
second half of an escape pair and continues identically), so the engine
finds no further match either way. -/
def itemScanGo : Nat → Str → List Str
  | 0, _ => []
  | _, [] => []
  | fuel + 1, c :: rest =>
    if c = sq then
      match scanQuotedBody rest with
      | some (body, r) => body :: itemScanGo fuel (rest.drop (rest.length - r.length))
      | none => itemScanGo fuel rest
    else itemScanGo fuel rest

/-- The item scan at full fuel. Each step of `itemScanGo` consumes at least
one character, so fuel equal to the text's length never runs out — it is
the textual form of the loop's hard bound. -/
def itemScan (s : Str) : List Str := itemScanGo s.length s

/-- The structured-list item filter (lines 698-702, 784-788): unescape
`\'`, drop boolean literal tokens and strings of length `≤ 2`. -/
def structuredItemFilter (raw : Str) : Option Str :=
  if unescapeQuotes raw ≠ ("true".data) ∧ unescapeQuotes raw ≠ ("false".data) ∧
      2 < (unescapeQuotes raw).length then
    some (unescapeQuotes raw)
  else none

/-- The legacy-path item filter (lines 804-806): unescape `\'`, keep
anything of length `> 2` (no boolean check here). -/
def legacyItemFilter (raw : Str) : Option Str :=
  if 2 < (unescapeQuotes raw).length then some (unescapeQuotes raw) else none

/-! ### Section / list / subsection extraction (`parseContentSections`,
lines 609-823) -/

/-- The repeated block `indexOf(key); indexOf('[', ...); depth-scan to the
matching ']'; substring(arrStart + 1, pos - 1)` (lines 662-673, 683-694,
723-734, 752-763, 770-781). `none` when the key or the `[` is missing. -/
def arrayBodyAfterKey (s key : Str) : Option Str :=
  let ks := jsIndexOf s key 0
  if ks = -1 then none
  else
    let arrStart := jsIndexOf s ("[".data) ks
    if arrStart = -1 then none
    else
      let consumed := depthScan '[' ']' (s.drop (arrStart.toNat + 1)) 1
      some (jsSubstring s (arrStart + 1) (arrStart + 1 + (consumed : Int) - 1))

/-- One `{title, items, ordered}` object (lines 676-705, 765-789). -/
def parseListObj (listStr : Str) : ContentList :=
  { title := extractStringValue listStr ("title".data)
    ordered := jsIncludes listStr ("'ordered': true".data)
    items :=
      match arrayBodyAfterKey listStr (quoted ("items".data)) with
      | some body => (itemScan body).filterMap structuredItemFilter
      | none => [] }

/-- The `'lists'` field of a section or subsection object (lines 661-712
and their verbatim copy 750-795): parse each top-level object of the
`lists` array, keep those with at least one surviving item. -/
def sectionLists (sectionStr : Str) : List ContentList :=
  match arrayBodyAfterKey sectionStr (quoted ("lists".data)) with
  | none => []
  | some listsStr =>
    ((splitTopLevelObjects listsStr).map parseListObj).filter (fun l => !l.items.isEmpty)

/-- The section-level `'image': { 'src': asset('..'), 'alt': '..' }` regex
(lines 715, 744): `'image'\s*:\s*\{[\s\S]*?'src'\s*:\s*asset\(\s*'([^']*)'
\s*\)[\s\S]*?'alt'\s*:\s*'([^']*)'`. The `src` part, anchored. -/
def imageSrcPart (s : Str) : Option (Str × Str) := do
  let r1 ← expectLit (quoted ("src".data)) s
  let r2 ← expectChar ':' (skipWs r1)
  let r3 ← expectLit ("asset(".data) (skipWs r2)
  let r4 ← expectChar sq (skipWs r3)
  let (v, r5) ← scanTo sq r4
  let r6 ← expectChar ')' (skipWs r5)
  pure (v, r6)

/-- The `alt` part of the section-image regex, anchored. -/
def imageAltPart (s : Str) : Option Str := do
  let r1 ← expectLit (quoted ("alt".data)) s
  let r2 ← expectChar ':' (skipWs r1)
  let r3 ← expectChar sq (skipWs r2)
  let (v, _) ← scanTo sq r3
  pure v

/-- The whole section-image regex, anchored; its two lazy `[\s\S]*?` groups
compile to `firstMatch` of the continuation. -/
def imageObjAt (s : Str) : Option (Str × Str) := do
  let r1 ← expectLit (quoted ("image".data)) s
  let r2 ← expectChar ':' (skipWs r1)
  let r3 ← expectChar '\x7b' (skipWs r2)
  let (src, r4) ← firstMatch imageSrcPart r3
  let alt ← firstMatch imageAltPart r4
  pure (src, alt)

/-- `sectionStr.match(imageRegex)`: leftmost occurrence. -/
def sectionImage (s : Str) : Option (Str × Str) := firstMatch imageObjAt s

/-- The legacy bare-items regex `/'items'\s*:\s*\[([\s\S]*?)\]/` of the
subsection path (line 799): group 1, lazy up to the first `]`. -/
def simpleItemsBody (subStr : Str) : Option Str :=
  firstMatch
    (fun s => do
      let r1 ← expectLit (quoted ("items".data)) s
      let r2 ← expectChar ':' (skipWs r1)
      let r3 ← expectChar '[' (skipWs r2)
      let (body, _) ← lazyFindP (expectChar ']') r3
      pure body)
    subStr

/-- The legacy fallback (lines 798-812): when the structured `lists` came
out empty, a bare `items` array becomes one untitled unordered list —
provided some item survives the length filter. -/
def subLegacyLists (subStr : Str) : List ContentList :=
  match simpleItemsBody subStr with
  | none => []
  | some body =>
    let items := (itemScan body).filterMap legacyItemFilter
    if items.isEmpty then [] else [{ title := [], ordered := false, items := items }]

/-- One subsection object (lines 737-814). -/
def parseSubStr (subStr : Str) : Subsection :=
  let structured := sectionLists subStr
  { subheading := extractStringValue subStr ("subheading".data)
    content := extractStringValue subStr ("content".data)
    additionalContent := extractStringValue subStr ("additional_content".data)
    image := sectionImage subStr
    lists := if structured.isEmpty then subLegacyLists subStr else structured }

/-- The `'subsections'` field of a section object (lines 722-817). -/
def sectionSubsections (sectionStr : Str) : List Subsection :=
  match arrayBodyAfterKey sectionStr (quoted ("subsections".data)) with
  | none => []
  | some subsStr => (splitTopLevelObjects subsStr).map parseSubStr

/-- One section object (lines 652-820). -/
def parseSectionStr (sectionStr : Str) : Section :=
  { id := extractStringValue sectionStr ("id".data)
    heading := extractStringValue sectionStr ("heading".data)
    content := extractStringValue sectionStr ("content".data)
    additionalContent := extractStringValue sectionStr ("additional_content".data)
    lists := sectionLists sectionStr
    image := sectionImage sectionStr
    subsections := sectionSubsections sectionStr }

/-- Where the `content_sections` array starts (lines 612-634): after the
`'content_sections'` key when present, else (pattern 2) after the four
leading string arguments; `-1` when not found. -/
def sectionsArrayStart (h : Str) : Int :=
  let csStart := jsIndexOf h (quoted ("content_sections".data)) 0
  if csStart ≠ -1 then jsIndexOf h ("[".data) csStart
  else
    let i := skipNStrings h 4
    let j := findCharFrom '[' h i
    if j < h.length then (j : Int) else -1

/-- The body of the `content_sections` array (lines 636-647): `none` when
the start is missing (the code then returns no sections). -/
def sectionsArrayBody (h : Str) : Option Str :=
  let arrStart := sectionsArrayStart h
  if arrStart = -1 ∨ (h.length : Int) ≤ arrStart then none
  else
    let consumed := depthScan '[' ']' (h.drop (arrStart.toNat + 1)) 1
    some (jsSubstring h (arrStart + 1) (arrStart + 1 + (consumed : Int) - 1))

/-- `parseContentSections(hashContent)` (lines 609-823). -/
def parseContentSections (h : Str) : List Section :=
  match sectionsArrayBody h with
  | none => []
  | some body => (splitTopLevelObjects body).map parseSectionStr

/-! ### Table-of-contents extraction -/

/-- One `'k'\s*:\s*'([^']*)'` field inside a TOC object (note `[^']*`, not
escape-aware, exactly as in the TOC regexes of lines 451, 524-525, 543). -/
def tocField (k : Str) (s : Str) : Option (Str × Str) := do
  let r1 ← expectLit (quoted k) s
  let r2 ← expectChar ':' (skipWs r1)
  let r3 ← expectChar sq (skipWs r2)
  scanTo sq r3

/-- The TOC-object regex from just after its `{`:
`\s*'k1'\s*:\s*'([^']*)'\s*,\s*'k2'\s*:\s*'([^']*)'\s*\}`; the result is
the two groups and the number of characters consumed (so the global scan
can resume where the match ended, as `lastIndex` does). -/
def matchTocAfterBrace (k1 k2 : Str) (rest : Str) : Option (Str × Str × Nat) := do
  let (v1, r1) ← tocField k1 (skipWs rest)
  let r2 ← expectChar ',' (skipWs r1)
  let (v2, r3) ← tocField k2 (skipWs r2)
  let r4 ← expectChar '\x7d' (skipWs r3)
  pure (v1, v2, rest.length - r4.length)

/-- The `while ((m = tocRegex.exec(text)) !== null)` loop: all matches of
`\{\s*'k1'\s*:\s*'([^']*)'\s*,\s*'k2'\s*:\s*'([^']*)'\s*\}`, in order,
non-overlapping, resuming after each match. -/
def tocScanGo (k1 k2 : Str) : Nat → Str → List (Str × Str)
  | _, [] => []
  | 0, _ => []
  | fuel + 1, c :: rest =>
    if c = '\x7b' then
      match matchTocAfterBrace k1 k2 rest with
      | some (v1, v2, n) => (v1, v2) :: tocScanGo k1 k2 fuel (rest.drop n)
      | none => tocScanGo k1 k2 fuel rest
    else tocScanGo k1 k2 fuel rest

/-- The TOC scan at full fuel (each step consumes at least one character,
so fuel equal to the text's length never runs out). -/
def tocScan (k1 k2 : Str) (s : Str) : List (Str × Str) := tocScanGo k1 k2 s.length s

/-- TOC strategy 1 of `parseMacroCallPattern` (lines 524, 532-534):
`{title, href}` ordering over the span after the sections array; `href`
takes group 2, `title` group 1. -/
def tocStrategy1 (afterSections : Str) : List TocItem :=
  (tocScan ("title".data) ("href".data) afterSections).map
    (fun p => { href := p.2, title := p.1 })

/-- TOC strategy 2 (lines 525, 535-539): `{href, title}` ordering over the
same span; `href` takes group 1, `title` group 2. -/
def tocStrategy2 (afterSections : Str) : List TocItem :=
  (tocScan ("href".data) ("title".data) afterSections).map
    (fun p => { href := p.1, title := p.2 })

/-- TOC strategy 3 (lines 542-550): `{title, href}` ordering over the whole
macro-argument span, keeping only entries whose `href` starts with `#`. -/
def tocStrategy3 (macroArgs : Str) : List TocItem :=
  (tocScan ("title".data) ("href".data) macroArgs).filterMap
    (fun p =>
      if ("#".data).isPrefixOf p.2 then some ({ href := p.2, title := p.1 } : TocItem)
      else none)

/-- The span the first two TOC strategies search (lines 529-530): the text
after the content-sections array when `findContentSectionsEnd` is positive,
else the whole macro-argument span. -/
def tocSearchSpan (macroArgs : Str) : Str :=
  let cse := findContentSectionsEnd macroArgs
  if 0 < cse then jsSubstring macroArgs cse (macroArgs.length : Int) else macroArgs

/-- The TOC cascade of `parseMacroCallPattern` (lines 522-550): strategy 1
on the after-sections span, then strategy 2 there if it found nothing, then
strategy 3 on the whole span if both found nothing. -/
def extractMacroToc (macroArgs : Str) : List TocItem :=
  let afterSections := tocSearchSpan macroArgs
  let t1 := tocStrategy1 afterSections
  if !t1.isEmpty then t1
  else
    let t2 := tocStrategy2 afterSections
    if !t2.isEmpty then t2
    else tocStrategy3 macroArgs

/-! ### Pattern 1 — `parseArticleDataPattern` (lines 430-461) -/

/-- The regex `'image'\s*:\s*asset\(\s*'([^']*)'\s*\)` (line 444), anchored. -/
def imageFieldAt (s : Str) : Option Str := do
  let r1 ← expectLit (quoted ("image".data)) s
  let r2 ← expectChar ':' (skipWs r1)
  let r3 ← expectLit ("asset(".data) (skipWs r2)
  let r4 ← expectChar sq (skipWs r3)
  let (v, r5) ← scanTo sq r4
  let _ ← expectChar ')' (skipWs r5)
  pure v

/-- `parseArticleDataPattern(content, setStart, result)`: carve out the
`{ ... }` after `{% set article_data` with the quote-blind brace scan, then
extract every field from that span. -/
def parseArticleDataPattern (content : Str) (setStart : Nat) (base : ParsedArticle) :
    ParsedArticle :=
  let afterSet : Int :=
    jsIndexOf content ("\x7b".data) (jsIndexOf content ("\x7b".data) (setStart : Int) + 1)
  let consumed := depthScan '\x7b' '\x7d' (content.drop (afterSet + 1).toNat) 1
  let pos : Int := afterSet + 1 + consumed
  let hashContent := jsSubstring content afterSet pos
  { base with
    title := extractStringValue hashContent ("title".data)
    imagePath :=
      match firstMatch imageFieldAt hashContent with
      | some v => some v
      | none => base.imagePath
    imageAlt := extractStringValue hashContent ("image_alt".data)
    introText := extractStringValue hashContent ("intro_text".data)
    tocItems :=
      (tocScan ("href".data) ("title".data) hashContent).map
        (fun p => { href := p.1, title := p.2 })
    contentSections := parseContentSections hashContent
    conclusion := extractStringValue hashContent ("conclusion".data) }

/-! ### Pattern 2 — `parseMacroCallPattern` (lines 468-553) -/

/-- The anchored title regex `^\s*'((?:[^'\\]|\\.)*)'` (line 492). -/
def macroTitleMatch (s : Str) : Option Str := do
  let r1 ← expectChar sq (skipWs s)
  let (body, _) ← scanQuotedBody r1
  pure body

/-- The regex `asset\(\s*'([^']*)'\s*\)` (line 498), anchored. -/
def assetAt (s : Str) : Option Str := do
  let r1 ← expectLit ("asset(".data) s
  let r2 ← expectChar sq (skipWs r1)
  let (v, r3) ← scanTo sq r2
  let _ ← expectChar ')' (skipWs r3)
  pure v

/-- The regex `,\s*'((?:[^'\\]|\\.)*)'` (line 505), anchored. -/
def altAt (s : Str) : Option Str := do
  let r1 ← expectChar ',' s
  let r2 ← expectChar sq (skipWs r1)
  let (body, _) ← scanQuotedBody r2
  pure body

/-- The regex `,\s*'(?:[^'\\]|\\.)*'\s*,\s*'((?:[^'\\]|\\.)*)'` (line 512),
anchored. -/
def introAt (s : Str) : Option Str := do
  let r1 ← expectChar ',' s
  let r2 ← expectChar sq (skipWs r1)
  let (_, r3) ← scanQuotedBody r2
  let r4 ← expectChar ',' (skipWs r3)
  let r5 ← expectChar sq (skipWs r4)
  let (body, _) ← scanQuotedBody r5
  pure body

/-- `parseMacroCallPattern(content, macroStart, result)`. -/
def parseMacroCallPattern (content : Str) (macroStart : Nat) (base : ParsedArticle) :
    ParsedArticle :=
  let parenStart := jsIndexOf content ("(".data) (macroStart : Int)
  let consumed := depthScan '(' ')' (content.drop (parenStart + 1).toNat) 1
  let pos : Int := parenStart + 1 + consumed
  let macroArgs := jsSubstring content (parenStart + 1) (pos - 1)
  let afterAsset : Int :=
    jsIndexOf macroArgs (")".data) (jsIndexOf macroArgs ("asset(".data) 0) + 1
  let afterAssetStr := jsSubstring macroArgs afterAsset (macroArgs.length : Int)
  let base :=
    match macroTitleMatch macroArgs with
    | some t => { base with title := unescapeQuotes t }
    | none => base
  let base :=
    match firstMatch assetAt macroArgs with
    | some v => { base with imagePath := some v }
    | none => base
  let base :=
    match firstMatch altAt afterAssetStr with
    | some v => { base with imageAlt := unescapeQuotes v }
    | none => base
  let base :=
    match firstMatch introAt afterAssetStr with
    | some v => { base with introText := unescapeQuotes v }
    | none => base
  { base with
    contentSections := parseContentSections macroArgs
    tocItems := extractMacroToc macroArgs }

/-! ### Directive stripping and the fallback path -/

/-- The first adjacent pair `c1 c2` (index of its first character), giving
up at a newline (regex `.` matches neither `\n` nor `\r`). -/
def findClose2 (c1 c2 : Char) : Str → Option Nat
  | [] => none
  | [_] => none
  | a :: b :: rest =>
    if a = c1 ∧ b = c2 then some 0
    else if a = '\n' ∨ a = '\r' then none
    else (findClose2 c1 c2 (b :: rest)).map (· + 1)

/-- `.replace(/o1o2.*?c1c2/g, '')`: drop every lazy same-line span between
the two-character opener and the nearest two-character closer. -/
def stripPairGo (o1 o2 c1 c2 : Char) : Nat → Str → Str
  | _, [] => []
  | 0, str => str
  | _ + 1, [c] => [c]
  | fuel + 1, a :: b :: rest =>
    if a = o1 ∧ b = o2 then
      match findClose2 c1 c2 rest with
      | some j => stripPairGo o1 o2 c1 c2 fuel (rest.drop (j + 2))
      | none => a :: stripPairGo o1 o2 c1 c2 fuel (b :: rest)
    else a :: stripPairGo o1 o2 c1 c2 fuel (b :: rest)

/-- The strip at full fuel (each step consumes at least one character, so
fuel equal to the text's length never runs out). -/
def stripPair (o1 o2 c1 c2 : Char) (s : Str) : Str := stripPairGo o1 o2 c1 c2 s.length s

/-- `.replace(/\{\{.*?\}\}/g, '')` (lines 401, 857). -/
def stripMoustache (s : Str) : Str := stripPair '\x7b' '\x7b' '\x7d' '\x7d' s

/-- `.replace(/\{%.*?%\}/g, '')` (line 858). -/
def stripTwigTag (s : Str) : Str := stripPair '\x7b' '%' '%' '\x7d' s

/-- `.replace(/\s+/g, ' ')` (line 401). -/
def collapseWsGo : Nat → Str → Str
  | _, [] => []
  | 0, str => str
  | fuel + 1, c :: rest =>
    if wsChar c then ' ' :: collapseWsGo fuel (rest.dropWhile wsChar)
    else c :: collapseWsGo fuel rest

/-- The collapse at full fuel (each step consumes at least one character,
so fuel equal to the text's length never runs out). -/
def collapseWs (s : Str) : Str := collapseWsGo s.length s

/-- The tail `\{%\s*endblock` of the block regexes (lines 399, 854),
anchored. -/
def endblockPart (t : Str) : Option Str := do
  let u1 ← expectLit ("\x7b%".data) t
  expectLit ("endblock".data) (skipWs u1)

/-- The regex `\{%\s*block\s+<kw>\s*%\}([\s\S]*?)\{%\s*endblock` (lines
399, 854), anchored: group 1, the block's inner text, lazy up to the first
`\{%\s*endblock`. -/
def twigBlockTailAt (kw : Str) (s : Str) : Option Str := do
  let r1 ← expectLit ("\x7b%".data) s
  let r2 ← expectLit ("block".data) (skipWs r1)
  let r3 ← ws1 r2
  let r4 ← expectLit kw r3
  let r5 ← expectLit ("%\x7d".data) (skipWs r4)
  let (body, _) ← lazyFindP endblockPart r5
  pure body

/-- `content.match(blockRegex)`: leftmost occurrence. -/
def twigBlockMatch (kw : Str) (content : Str) : Option Str :=
  firstMatch (twigBlockTailAt kw) content

/-- The regex `name="description"\s+content="([^"]*)"` (line 405),
anchored. -/
def metaDescAt (s : Str) : Option Str := do
  let r1 ← expectLit ("name=\"description\"".data) s
  let r2 ← ws1 r1
  let r3 ← expectLit ("content=\"".data) r2
  let (v, _) ← scanTo '"' r3
  pure v

/-- `extractFallbackContent(content, result)` (lines 852-862): the
`workarea_content` block, directives stripped, trimmed — with no length
truncation. -/
def extractFallbackContent (content : Str) (base : ParsedArticle) : ParsedArticle :=
  match twigBlockMatch ("workarea_content".data) content with
  | some inner => { base with rawHtml := jsTrim (stripTwigTag (stripMoustache inner)) }
  | none => base

/-- Lines 396-408 of `parseTwigFile` (the `fs.readFileSync` I/O stays
outside the embedding; `content` is the file's text): the `result` object
with `metaTitle` and `metaDescription` filled in before the dispatch. -/
def metaBase (content : Str) : ParsedArticle :=
  let r0 : ParsedArticle := {}
  let r1 :=
    match twigBlockMatch ("title".data) content with
    | some inner => { r0 with metaTitle := jsTrim (collapseWs (stripMoustache inner)) }
    | none => r0
  match firstMatch metaDescAt content with
  | some d => { r1 with metaDescription := jsTrim d }
  | none => r1

/-- The three-way grammar dispatch of `parseTwigFile` (lines 410-423). -/
def parseTwigContent (content : Str) : ParsedArticle :=
  let r2 := metaBase content
  let setStart := jsIndexOf content ("\x7b% set article_data".data) 0
  if setStart ≠ -1 then parseArticleDataPattern content setStart.toNat r2
  else
    let macroStart := jsIndexOf content ("blog_macros.blog_content(".data) 0
    if macroStart ≠ -1 then parseMacroCallPattern content macroStart.toNat r2
    else extractFallbackContent content r2

/-! ### Inline Markup Converter — `parseInlineHtml` (lines 1018-1077) -/

/-- A Strapi text node: `{type: 'text', text, bold?, italic?}` after the
final cleaning pass (lines 1071-1076), which keeps `bold`/`italic` only
when truthy — so two booleans. -/
structure TextRun where
  text : Str
  bold : Bool
  italic : Bool
  deriving DecidableEq

/-- One alternative of the split regex (line 1022) from just after its
leading `<`; the result is the number of characters the alternative
consumes after the `<`. The five alternatives are mutually exclusive (they
diverge on what follows the `<`), so alternation order cannot matter. -/
def tagAltTail (rest : Str) : Option Nat :=
  let tagEnd (r : Str) : Option Nat := some (rest.length - r.length)
  let plainTag (opener closer : Str) : Option Nat := do
    let r1 ← expectLit opener rest
    let (_, r2) ← lazyFindP (expectLit closer) r1
    tagEnd r2
  let anchorTag : Option Nat := do
    let r1 ← expectLit ("a".data) rest
    let r2 ←
      match r1 with
      | [] => none
      | c :: r' => if wsChar c then some r' else none
    let (_, r3) ← scanTo '>' r2
    let (_, r4) ← lazyFindP (expectLit ("</a>".data)) r3
    tagEnd r4
  anchorTag <|> plainTag ("strong>".data) ("</strong>".data) <|>
    plainTag ("b>".data) ("</b>".data) <|> plainTag ("em>".data) ("</em>".data) <|>
    plainTag ("i>".data) ("</i>".data)

/-- `text.split(/(<a\s[^>]*>[\s\S]*?<\/a>|<strong>[\s\S]*?<\/strong>|<b>
[\s\S]*?<\/b>|<em>[\s\S]*?<\/em>|<i>[\s\S]*?<\/i>)/)`: segments and
matched delimiters interleaved (captured separators are kept, and empty
segments appear between adjacent matches and at the ends, as in JS).
`seg` accumulates the current segment in reverse. -/
def splitTagsGo : Nat → Str → Str → List Str
  | _, [], seg => [seg.reverse]
  | 0, str, seg => [seg.reverse ++ str]
  | fuel + 1, c :: rest, seg =>
    if c = '<' then
      match tagAltTail rest with
      | some n => seg.reverse :: (c :: rest.take n) :: splitTagsGo fuel (rest.drop n) []
      | none => splitTagsGo fuel rest (c :: seg)
    else splitTagsGo fuel rest (c :: seg)

/-- The split of line 1022, at full fuel (each step consumes at least one
character, so fuel equal to the text's length never runs out). -/
def jsSplitTags (text : Str) : List Str := splitTagsGo text.length text []

/-- One of the eight emphasis tags (line 1031's replace alternation)
from just after its `<`: the consumed count after the `<`. -/
def emphTagTail (rest : Str) : Option Nat :=
  (expectLit ("/strong>".data) rest <|> expectLit ("strong>".data) rest <|>
      expectLit ("/b>".data) rest <|> expectLit ("b>".data) rest <|>
      expectLit ("/em>".data) rest <|> expectLit ("em>".data) rest <|>
      expectLit ("/i>".data) rest <|> expectLit ("i>".data) rest).map
    (fun r => rest.length - r.length)

/-- `.replace(/<\/?strong>|<\/?b>|<\/?em>|<\/?i>/g, '')` (line 1031). -/
def stripEmphTagsGo : Nat → Str → Str
  | _, [] => []
  | 0, str => str
  | fuel + 1, c :: rest =>
    if c = '<' then
      match emphTagTail rest with
      | some n => stripEmphTagsGo fuel (rest.drop n)
      | none => c :: stripEmphTagsGo fuel rest
    else c :: stripEmphTagsGo fuel rest

/-- The tag removal at full fuel (each step consumes at least one
character, so fuel equal to the text's length never runs out). -/
def stripEmphTags (s : Str) : Str := stripEmphTagsGo s.length s

/-- The anchor regex `<a\s+href="([^"]*)"[^>]*>([\s\S]*?)<\/a>` (line
1028), anchored: `(href, inner)`. -/
def linkAt (s : Str) : Option (Str × Str) := do
  let r1 ← expectLit ("<a".data) s
  let r2 ← ws1 r1
  let r3 ← expectLit ("href=\"".data) r2
  let (href, r4) ← scanTo '"' r3
  let (_, r5) ← scanTo '>' r4
  let (inner, _) ← lazyFindP (expectLit ("</a>".data)) r5
  pure (href, inner)

/-- The bold regex `<(?:strong|b)>([\s\S]*?)<\/(?:strong|b)>` (line 1046),
anchored. -/
def boldAt (s : Str) : Option Str := do
  let r1 ← expectLit ("<strong>".data) s <|> expectLit ("<b>".data) s
  let (inner, _) ←
    lazyFindP (fun t => expectLit ("</strong>".data) t <|> expectLit ("</b>".data) t) r1
  pure inner

/-- The italic regex `<(?:em|i)>([\s\S]*?)<\/(?:em|i)>` (line 1053),
anchored. -/
def italicAt (s : Str) : Option Str := do
  let r1 ← expectLit ("<em>".data) s <|> expectLit ("<i>".data) s
  let (inner, _) ←
    lazyFindP (fun t => expectLit ("</em>".data) t <|> expectLit ("</i>".data) t) r1
  pure inner

/-- `/<strong>|<b>/.test(...)` (line 1032). -/
def hasBoldTag (inner : Str) : Bool :=
  jsIncludes inner ("<strong>".data) || jsIncludes inner ("<b>".data)

/-- The `children` array after the main loop of `parseInlineHtml` (lines
1019-1063), before the empty-guard and the cleaning map. -/
def inlineChildren (text : Str) : List TextRun :=
  (jsSplitTags text).foldl
    (fun acc part =>
      if part.isEmpty then acc
      else
        match firstMatch linkAt part with
        | some hi =>
          let innerText := jsTrim (stripEmphTags hi.2)
          let isBold := hasBoldTag hi.2
          acc ++ [⟨innerText, isBold, false⟩]
        | none =>
          match firstMatch boldAt part with
          | some t => acc ++ [⟨t, true, false⟩]
          | none =>
            match firstMatch italicAt part with
            | some t => acc ++ [⟨t, false, true⟩]
            | none =>
              if !(jsTrim part).isEmpty then acc ++ [⟨part, false, false⟩] else acc)
    []

/-- `parseInlineHtml(text)`: the loop's children, one whole-text unstyled
run if they are empty (lines 1066-1068), then the cleaning map. -/
def parseInlineHtml (text : Str) : List TextRun :=
  let children := inlineChildren text
  let children := if children.isEmpty then [⟨text, false, false⟩] else children
  children.map (fun c => ⟨c.text, c.bold, c.italic⟩)

/-! ### Block Assembler — `addParagraphs`, `buildRichTextContent`
(lines 871-1012) -/

/-- One output block: heading (`level` 2 or 3), paragraph, or list
(`ordered` true for `format: 'ordered'`); list items are the rich-text
children of the `list-item` nodes. -/
inductive Block where
  | heading (level : Nat) (runs : List TextRun)
  | paragraph (runs : List TextRun)
  | list (ordered : Bool) (items : List (List TextRun))
  deriving DecidableEq

/-- `addParagraphs(blocks, text)` (lines 871-882); the loops of lines
889-898 and 991-1000 are verbatim copies of its body. -/
def addParagraphs (blocks : List Block) (text : Str) : List Block :=
  (splitOnChar '|' text).foldl
    (fun acc p =>
      let trimmed := jsTrim p
      if !trimmed.isEmpty then acc ++ [.paragraph (parseInlineHtml trimmed)] else acc)
    blocks

/-- The push of one list (lines 920-935 and their copy 962-977): an
optional bold-title paragraph, then the list block. -/
def pushList (blocks : List Block) (l : ContentList) : List Block :=
  let blocks :=
    if !l.title.isEmpty then blocks ++ [.paragraph [⟨l.title, true, false⟩]] else blocks
  blocks ++
    [.list l.ordered (l.items.map (fun item => parseInlineHtml (unescapeQuotes item)))]

/-- The push of one subsection (lines 945-984). -/
def pushSubsection (blocks : List Block) (sub : Subsection) : List Block :=
  let blocks :=
    if !sub.subheading.isEmpty then
      blocks ++ [.heading 3 [⟨sub.subheading, false, false⟩]]
    else blocks
  let blocks := if !sub.content.isEmpty then addParagraphs blocks sub.content else blocks
  let blocks := if !sub.lists.isEmpty then sub.lists.foldl pushList blocks else blocks
  if !sub.additionalContent.isEmpty then addParagraphs blocks sub.additionalContent
  else blocks

/-- The push of one section (lines 903-986). -/
def pushSection (blocks : List Block) (s : Section) : List Block :=
  let blocks :=
    if !s.heading.isEmpty then blocks ++ [.heading 2 [⟨s.heading, false, false⟩]]
    else blocks
  let blocks := if !s.content.isEmpty then addParagraphs blocks s.content else blocks
  let blocks := if !s.lists.isEmpty then s.lists.foldl pushList blocks else blocks
  let blocks :=
    if !s.additionalContent.isEmpty then addParagraphs blocks s.additionalContent
    else blocks
  s.subsections.foldl pushSubsection blocks

/-- `buildRichTextContent(parsed)` (lines 884-1012). (`parsed.
contentSections` is always an array here — in JS an absent field skips the
loop, an empty array runs it zero times, the same outcome.) -/
def buildRichTextContent (parsed : ParsedArticle) : List Block :=
  let blocks : List Block := []
  let blocks := if !parsed.introText.isEmpty then addParagraphs blocks parsed.introText else blocks
  let blocks := parsed.contentSections.foldl pushSection blocks
  let blocks := if !parsed.conclusion.isEmpty then addParagraphs blocks parsed.conclusion else blocks
  if blocks.isEmpty ∧ !parsed.rawHtml.isEmpty then
    [.paragraph [⟨parsed.rawHtml.take 2000, false, false⟩]]
  else blocks

/-! ### Declarative forms of the assembler (for the structure theorems) -/

/-- The paragraph blocks of one pipe-separated field, written as a
`filterMap`: one paragraph per segment whose trim is non-empty. -/
def paraBlocksOf (text : Str) : List Block :=
  (splitOnChar '|' text).filterMap
    (fun p =>
      let trimmed := jsTrim p
      if !trimmed.isEmpty then some (Block.paragraph (parseInlineHtml trimmed)) else none)

/-- The blocks of one list, declaratively. -/
def listBlocksOf (l : ContentList) : List Block :=
  (if !l.title.isEmpty then [Block.paragraph [⟨l.title, true, false⟩]] else []) ++
    [Block.list l.ordered (l.items.map (fun item => parseInlineHtml (unescapeQuotes item)))]

/-- The blocks of one subsection, declaratively. -/
def subBlocksOf (sub : Subsection) : List Block :=
  (if !sub.subheading.isEmpty then [Block.heading 3 [⟨sub.subheading, false, false⟩]] else []) ++
    paraBlocksOf sub.content ++ (sub.lists.map listBlocksOf).flatten ++
    paraBlocksOf sub.additionalContent

/-- The blocks of one section, declaratively. -/
def sectionBlocksOf (s : Section) : List Block :=
  (if !s.heading.isEmpty then [Block.heading 2 [⟨s.heading, false, false⟩]] else []) ++
    paraBlocksOf s.content ++ (s.lists.map listBlocksOf).flatten ++
    paraBlocksOf s.additionalContent ++ (s.subsections.map subBlocksOf).flatten

/-- The whole document before the raw-HTML fallback, declaratively. -/
def mainBlocksOf (p : ParsedArticle) : List Block :=
  paraBlocksOf p.introText ++ (p.contentSections.map sectionBlocksOf).flatten ++
    paraBlocksOf p.conclusion

/-! ### The quote-aware scanner the specification describes -/

/-- Modelled from the spec: the Delimiter Scanner contract of section 4.1 —
missing from the code, which scans quote-blind — "returns the index one
past its matching closing delimiter, tracking nesting depth and explicitly
skipping over single-quoted string regions", toggling an in-string flag on
each unescaped `'` (a backslash immediately preceding a quote suppresses
the toggle), failing with a sentinel (`none`) at end-of-text with depth
still positive. Arguments after the text: the previous character, the
in-string flag, the current depth; the result counts consumed characters. -/
def specDelimScan (opn cls : Char) : Str → Option Char → Bool → Nat → Option Nat
  | [], _, _, _ => none
  | c :: rest, prev, inStr, d =>
    if c = sq ∧ prev ≠ some bsl then
      (specDelimScan opn cls rest (some c) (!inStr) d).map (· + 1)
    else if !inStr ∧ c = opn then
      (specDelimScan opn cls rest (some c) inStr (d + 1)).map (· + 1)
    else if !inStr ∧ c = cls then
      if d ≤ 1 then some 1 else (specDelimScan opn cls rest (some c) inStr (d - 1)).map (· + 1)
    else (specDelimScan opn cls rest (some c) inStr d).map (· + 1)

/-- The per-segment function of `paraBlocksOf`. -/
def paraOpt (p : Str) : Option Block :=
  let trimmed := jsTrim p
  if !trimmed.isEmpty then some (Block.paragraph (parseInlineHtml trimmed)) else none

/-! ### Concrete inputs for the scenario theorems -/

/-- The named-object end-to-end scenario source of the specification, with
the list items lengthened to `xxx`/`yyy` (three characters). -/
def cSrcScenario : Str :=
  ("\x7b% set article_data = \x7b 'title': 'T', 'intro_text': 'A|B', 'content_sections': [ \x7b 'heading': 'H', 'content': 'C', 'lists': [ \x7b 'title': 'L', 'items': ['xxx', 'yyy'], 'ordered': true \x7d ] \x7d ], 'conclusion': 'Z' \x7d %\x7d").data

/-- The same source with the specification's literal one-character items
`x` and `y`. -/
def cSrcXY : Str :=
  ("\x7b% set article_data = \x7b 'title': 'T', 'intro_text': 'A|B', 'content_sections': [ \x7b 'heading': 'H', 'content': 'C', 'lists': [ \x7b 'title': 'L', 'items': ['x', 'y'], 'ordered': true \x7d ] \x7d ], 'conclusion': 'Z' \x7d %\x7d").data

/-- A source matching neither grammar marker, with a fallback region. -/
def cSrcHello : Str :=
  ("<html>\x7b% block workarea_content %\x7dhello world\x7b% endblock %\x7d</html>").data

/-- The opener of the fallback block, for the long-region counterexample. -/
def cPreLong : Str := ("\x7b% block workarea_content %\x7d").data

/-- The closer of the fallback block. -/
def cPostLong : Str := ("\x7b% endblock %\x7d").data

/-- A fallback region of 2001 `a`s: longer than the only truncation bound
in the code (the 2000 of `rawHtml.substring(0, 2000)` at line 1007). -/
def cSrcLong : Str := cPreLong ++ List.replicate 2001 'a' ++ cPostLong

/-- A pattern-1 source cut off mid-object (no closing `}`). -/
def cUnterminated : Str := ("\x7b% set article_data = \x7b 'title': 'T', 'intro_text': 'A'").data

/-- Text after an opening `{`: a quoted string containing `}`, then the
real closing `}`. -/
def cQuotedBrace : Str := ("'a\x7d'\x7d x").data

/-- Text after an opening `{` with nested braces, for the balance witness. -/
def cNested : Str := ("a\x7bb\x7dc\x7d tail").data

/-- Macro arguments whose TOC objects are all `{href, title}`-ordered (the
content-sections array comes first, so the search span holds the TOC). -/
def cTocArgsHT : Str :=
  ("'T', asset('i1'), 'alt', 'intro', [ \x7b 'heading': 'H1' \x7d ], [ \x7b 'href': '#a', 'title': 'A' \x7d, \x7b 'href': '#b', 'title': 'B' \x7d ], 'Conc'").data

/-- Macro arguments whose only TOC-shaped objects are `{title, href}`
-ordered and sit inside the first array, so strategies 1 and 2 see nothing
and the whole-span strategy 3 fires, filtering on the `#`. -/
def cTocArgsWhole : Str :=
  ("'T', asset('i'), 'alt', 'intro', [ \x7b 'title': 'A', 'href': '#a' \x7d, \x7b 'title': 'B', 'href': 'xb' \x7d ], 'x'").data

/-- A sections span whose single section carries a bare `items` array and
no `lists` field. -/
def cC5Span : Str :=
  (" 'content_sections': [ \x7b 'heading': 'Head', 'items': ['abcd', 'efgh'] \x7d ] ").data

/-- A subsection object with a bare `items` array. -/
def cC5Sub : Str := ("\x7b 'items': ['abcd'] \x7d").data

/-- A sections span holding one empty object. -/
def cC6Span : Str := (" 'content_sections': [ \x7b\x7d ] ").data

/-- A sections span whose subsection's bare `items` array holds the
boolean literal token `'true'`. -/
def cC10Span : Str :=
  (" 'content_sections': [ \x7b 'subsections': [ \x7b 'items': ['true'] \x7d ] \x7d ] ").data

theorem depthScan_le_length (opn cls : Char) :
    ∀ (l : Str) (d : Nat), depthScan opn cls l d ≤ l.length := by
  intro l
  induction l with
  | nil => intro d; cases d <;> simp [depthScan]
  | cons c rest ih =>
    intro d
    cases d with
    | zero => simp [depthScan]
    | succ d =>
      simp only [depthScan, List.length_cons]
      have := ih (if c = opn then d + 2 else if c = cls then d else d + 1)
      omega

theorem depthScan_balanced (opn cls : Char) (hne : opn ≠ cls) :
    ∀ (l : Str) (d : Nat), depthScan opn cls l d < l.length →
      countCh cls (l.take (depthScan opn cls l d)) =
        d + countCh opn (l.take (depthScan opn cls l d)) := by
  intro l
  induction l with
  | nil => intro d h; simp at h
  | cons c rest ih =>
    intro d h
    cases d with
    | zero => simp [depthScan, countCh]
    | succ d =>
      simp only [depthScan, List.length_cons] at h ⊢
      rw [Nat.add_comm 1 _, List.take_succ_cons]
      replace h : depthScan opn cls rest
          (if c = opn then d + 2 else if c = cls then d else d + 1) <
          rest.length := by omega
      by_cases hcop : c = opn
      · subst hcop
        have hccl : ¬(c = cls) := hne
        rw [if_pos rfl] at h ⊢
        have := ih (d + 2) h
        simp only [countCh, List.filter_cons, if_pos rfl, decide_eq_true_eq,
          decide_eq_false hccl, Bool.false_eq_true, if_false, if_true,
          decide_True, List.length_cons] at this ⊢
        omega
      · by_cases hccl : c = cls
        · subst hccl
          rw [if_neg hcop, if_pos rfl] at h ⊢
          have := ih d h
          simp only [countCh, List.filter_cons, if_neg hcop, if_pos rfl,
            decide_eq_true_eq, decide_eq_false hcop, decide_True,
            Bool.false_eq_true, if_false, if_true, List.length_cons] at this ⊢
          omega
        · rw [if_neg hcop, if_neg hccl] at h ⊢
          have := ih (d + 1) h
          simp only [countCh, List.filter_cons, decide_eq_true_eq,
            decide_eq_false hcop, decide_eq_false hccl, Bool.false_eq_true,
            if_false] at this ⊢
          omega

/-! ### Shape lemmas for the Block Assembler -/

/-- A fold that only ever appends to its accumulator is the accumulator
followed by the flattened per-element contributions. -/
theorem foldl_pushout {α β : Type} (g : List β → α → List β) (f : α → List β)
    (hg : ∀ acc x, g acc x = acc ++ f x) :
    ∀ (l : List α) (init : List β), l.foldl g init = init ++ (l.map f).flatten := by
  intro l
  induction l with
  | nil => intro init; simp
  | cons x xs ih =>
    intro init
    simp only [List.foldl_cons, List.map_cons, List.flatten_cons, hg]
    rw [ih, List.append_assoc]

theorem paraBlocksOf_eq_filterMap (text : Str) :
    paraBlocksOf text = (splitOnChar '|' text).filterMap paraOpt := rfl

theorem addParagraphs_eq (blocks : List Block) (text : Str) :
    addParagraphs blocks text = blocks ++ paraBlocksOf text := by
  rw [paraBlocksOf_eq_filterMap, List.filterMap_eq_flatMap_toList, List.flatMap_def]
  apply foldl_pushout _ (fun p => (paraOpt p).toList)
  intro acc p
  unfold paraOpt
  by_cases h : (jsTrim p).isEmpty <;> simp [h]

theorem paraBlocksOf_nil : paraBlocksOf [] = [] := by decide

theorem pushList_eq (blocks : List Block) (l : ContentList) :
    pushList blocks l = blocks ++ listBlocksOf l := by
  unfold pushList listBlocksOf
  by_cases h : l.title.isEmpty <;> simp [h]

theorem pushSubsection_eq (blocks : List Block) (sub : Subsection) :
    pushSubsection blocks sub = blocks ++ subBlocksOf sub := by
  unfold pushSubsection subBlocksOf
  have hl := foldl_pushout pushList listBlocksOf pushList_eq sub.lists
  by_cases h1 : sub.subheading.isEmpty <;>
    by_cases h2 : sub.content.isEmpty <;>
    by_cases h3 : sub.lists.isEmpty <;>
    by_cases h4 : sub.additionalContent.isEmpty <;>
    simp_all [addParagraphs_eq, List.isEmpty_iff, paraBlocksOf_nil, List.append_assoc]

theorem pushSection_eq (blocks : List Block) (s : Section) :
    pushSection blocks s = blocks ++ sectionBlocksOf s := by
  unfold pushSection sectionBlocksOf
  have hl := foldl_pushout pushList listBlocksOf pushList_eq s.lists
  have hs := foldl_pushout pushSubsection subBlocksOf pushSubsection_eq s.subsections
  by_cases h1 : s.heading.isEmpty <;>
    by_cases h2 : s.content.isEmpty <;>
    by_cases h3 : s.lists.isEmpty <;>
    by_cases h4 : s.additionalContent.isEmpty <;>
    simp_all [addParagraphs_eq, List.isEmpty_iff, paraBlocksOf_nil, List.append_assoc]

theorem buildRichTextContent_eq (p : ParsedArticle) :
    buildRichTextContent p =
      if (mainBlocksOf p).isEmpty ∧ !p.rawHtml.isEmpty then
        [Block.paragraph [⟨p.rawHtml.take 2000, false, false⟩]]
      else mainBlocksOf p := by
  unfold buildRichTextContent mainBlocksOf
  have hs := foldl_pushout pushSection sectionBlocksOf pushSection_eq p.contentSections
  by_cases h1 : p.introText.isEmpty <;>
    by_cases h2 : p.conclusion.isEmpty <;>
    simp_all [addParagraphs_eq, List.isEmpty_iff, paraBlocksOf_nil, List.append_assoc]

/-! ### C2 — the delimiter scan versus quoted strings -/

/-- C2, counterexample: on the text `'a}'} x` following an opening brace,
the code's scan (`parseArticleDataPattern` line 432 et al. use the same
quote-blind loop) stops at the `}` inside the quoted string (3 characters
in), while the quote-aware scan the spec describes closes at the real `}`
(5 characters in): a brace inside a quoted string is counted toward
nesting depth. -/
theorem C2_scan_counts_quoted_delims :
    depthScan '\x7b' '\x7d' cQuotedBrace 1 = 3 ∧
      specDelimScan '\x7b' '\x7d' cQuotedBrace none false 1 = some 5 ∧ (3 : Nat) ≠ 5 :=
  ⟨by decide, by decide, by decide⟩

/-- C2, amended: the scan is quote-blind — it counts every delimiter
character, quoted or not. For every text and starting depth it stops within
the text's length, and when it stops before the end (that is, when depth
reached zero) the consumed prefix holds exactly `d` more closing than
opening delimiters, counting those inside quoted strings too. -/
theorem C2_scan_bound_and_balance (opn cls : Char) (hne : opn ≠ cls) (l : Str) (d : Nat) :
    depthScan opn cls l d ≤ l.length ∧
      (depthScan opn cls l d < l.length →
        countCh cls (l.take (depthScan opn cls l d)) =
          d + countCh opn (l.take (depthScan opn cls l d))) :=
  ⟨depthScan_le_length opn cls l d, depthScan_balanced opn cls hne l d⟩

/-- C2, witness: the amended theorem at the nested concrete text
`a{b}c} tail` with depth 1. -/
theorem C2_scan_bound_and_balance_witness :
    depthScan '\x7b' '\x7d' cNested 1 ≤ cNested.length ∧
      countCh '\x7d' (cNested.take (depthScan '\x7b' '\x7d' cNested 1)) =
        1 + countCh '\x7b' (cNested.take (depthScan '\x7b' '\x7d' cNested 1)) :=
  ⟨(C2_scan_bound_and_balance _ _ (by decide) cNested 1).1,
    (C2_scan_bound_and_balance _ _ (by decide) cNested 1).2 (by decide)⟩

/-! ### C7 — termination bounds -/

/-- C7: every delimiter scan consumes at most the input's length — the
loops' `pos < len` guard is a hard bound — and extraction of a source whose
object literal never closes terminates with a partial result: the
unterminated pattern-1 source still yields its `title` and `intro_text`,
with every other field empty. -/
theorem C7_scan_bounded_and_partial :
    (∀ (opn cls : Char) (l : Str) (d : Nat), depthScan opn cls l d ≤ l.length) ∧
      parseTwigContent cUnterminated =
        { title := ("T".data), introText := ("A".data) } :=
  ⟨fun opn cls l d => depthScan_le_length opn cls l d, by decide⟩

/-! ### C9 — the inline converter never discards text -/

/-- C9: the converter's output is never empty, and whenever the splitting
loop produced no runs the whole fragment comes back as a single run with
`bold = false` and `italic = false`. -/
theorem C9_inline_never_empty (text : Str) :
    parseInlineHtml text ≠ [] ∧
      (inlineChildren text = [] → parseInlineHtml text = [⟨text, false, false⟩]) := by
  constructor
  · unfold parseInlineHtml
    cases h : inlineChildren text with
    | nil => simp
    | cons a l => simp
  · intro h
    unfold parseInlineHtml
    rw [h]
    rfl

/-- C9, witness: on the empty fragment the loop produces no runs and the
converter returns the single unstyled whole-fragment run. -/
theorem C9_inline_never_empty_witness :
    parseInlineHtml ([] : Str) = [⟨([] : Str), false, false⟩] :=
  (C9_inline_never_empty []).2 (by decide)

/-! ### C8 — the string/value extractor -/

theorem expectLit_isPrefix {pat s r : Str} (h : expectLit pat s = some r) :
    pat.isPrefixOf s = true := by
  unfold expectLit at h
  by_cases hp : pat.isPrefixOf s
  · exact hp
  · simp [hp] at h

theorem matchKeyedAt_isPrefix {key s : Str} {b : Str} (h : matchKeyedAt key s = some b) :
    (quoted key).isPrefixOf s = true := by
  unfold matchKeyedAt at h
  cases he : expectLit (quoted key) s with
  | none => rw [he] at h; simp at h
  | some r1 => exact expectLit_isPrefix he

theorem firstMatch_some_drop {α : Type} {f : Str → Option α} :
    ∀ {s : Str} {a : α}, firstMatch f s = some a → ∃ n, f (s.drop n) = some a := by
  intro s
  induction s with
  | nil => intro a h; exact ⟨0, h⟩
  | cons c rest ih =>
    intro a h
    unfold firstMatch at h
    cases hf : f (c :: rest) with
    | some b => rw [hf] at h; exact ⟨0, hf.trans h⟩
    | none =>
      rw [hf] at h
      obtain ⟨n, hn⟩ := ih h
      exact ⟨n + 1, hn⟩

theorem findSubAux_isSome {pat : Str} :
    ∀ {text : Str} (n i : Nat), pat.isPrefixOf (text.drop n) = true →
      (findSubAux pat text i).isSome = true := by
  intro text
  induction text with
  | nil =>
    intro n i h
    simp only [List.drop_nil] at h
    have : pat = [] := by
      cases pat with
      | nil => rfl
      | cons a as => simp [List.isPrefixOf] at h
    simp [findSubAux, this]
  | cons c rest ih =>
    intro n i h
    cases n with
    | zero =>
      simp only [List.drop_zero] at h
      simp [findSubAux, h]
    | succ m =>
      simp only [List.drop_succ_cons] at h
      unfold findSubAux
      by_cases hp : pat.isPrefixOf (c :: rest)
      · simp [hp]
      · simp only [hp, Bool.false_eq_true, if_false]
        exact ih m (i + 1) h

/-- C8: `extractStringValue` returns the empty string — never an error —
whenever the quoted key does not occur in the span at all; and, concretely,
it takes the first `'key' : 'value'` occurrence and unescapes it (an
escaped quote becomes a quote, an escaped `n` becomes a newline). -/
theorem C8_extract_string_value :
    (∀ text key : Str, jsIncludes text (quoted key) = false →
        extractStringValue text key = []) ∧
      extractStringValue ((" 'x': 'don\\'t' ").data) (("x").data) = (("don't").data) ∧
      extractStringValue ((" 'k': 'v1', 'k': 'v2' ").data) (("k").data) = (("v1").data) ∧
      extractStringValue ((" 'a': 'one\\ntwo' ").data) (("a").data) = (("one\ntwo").data) := by
  refine ⟨?_, by decide, by decide, by decide⟩
  intro text key habs
  unfold extractStringValue
  cases hm : firstMatch (matchKeyedAt key) text with
  | none => rfl
  | some b =>
    exfalso
    obtain ⟨n, hn⟩ := firstMatch_some_drop hm
    have hp := matchKeyedAt_isPrefix hn
    have : (findSubAux (quoted key) text 0).isSome = true := findSubAux_isSome n 0 hp
    rw [jsIncludes, this] at habs
    simp at habs

/-- C8, witness: the absence branch at a concrete span and key. -/
theorem C8_extract_string_value_witness :
    extractStringValue (("no such key here").data) (("title").data) = [] :=
  C8_extract_string_value.1 _ _ (by decide)

/-! ### C4 — the table-of-contents cascade -/

/-- C4: the TOC extractor's strategies run in fixed priority order — the
`{title, href}` ordering over the after-sections span first, the
`{href, title}` ordering there only if the first found nothing, and the
whole-span `{title, href}` search with the `#`-anchor filter only if both
found nothing — and `href`/`title` are assigned from the correctly keyed
groups in every strategy: the `{href, title}`-only span yields items with
`href` and `title` unswapped, and so does the strategy-3 span (which also
drops the entry whose `href` lacks the `#`). -/
theorem C4_toc_priority :
    (∀ args : Str,
        (tocStrategy1 (tocSearchSpan args) ≠ [] →
          extractMacroToc args = tocStrategy1 (tocSearchSpan args)) ∧
        (tocStrategy1 (tocSearchSpan args) = [] → tocStrategy2 (tocSearchSpan args) ≠ [] →
          extractMacroToc args = tocStrategy2 (tocSearchSpan args)) ∧
        (tocStrategy1 (tocSearchSpan args) = [] → tocStrategy2 (tocSearchSpan args) = [] →
          extractMacroToc args = tocStrategy3 args)) ∧
      extractMacroToc cTocArgsHT =
        [⟨("#a").data, ("A").data⟩, ⟨("#b").data, ("B").data⟩] ∧
      tocStrategy1 (tocSearchSpan cTocArgsHT) = [] ∧
      extractMacroToc cTocArgsWhole = [⟨("#a").data, ("A").data⟩] := by
  refine ⟨?_, by decide, by decide, by decide⟩
  intro args
  unfold extractMacroToc
  refine ⟨?_, ?_, ?_⟩
  · intro h1
    simp [List.isEmpty_iff, h1]
  · intro h1 h2
    simp [List.isEmpty_iff, h1, h2]
  · intro h1 h2
    simp [List.isEmpty_iff, h1, h2]

/-- C4, witness: the second strategy fires on the `{href, title}`-only
span, with the fields correctly assigned. -/
theorem C4_toc_priority_witness :
    extractMacroToc cTocArgsHT = tocStrategy2 (tocSearchSpan cTocArgsHT) :=
  (C4_toc_priority.1 cTocArgsHT).2.1 (by decide) (by decide)

/-! ### C1 — block assembly -/

/-- C1, counterexample: on the spec's own end-to-end source — items
literally `'x'` and `'y'` — the item filter (`val.length > 2`, line 700)
drops both items, the empty list is then not pushed (line 707), and with it
the bold-title paragraph never appears: the claimed seven-block output
`A, B, H, C, bold L, list [x, y], Z` is not produced; five blocks are. -/
theorem C1_scenario_short_items_fail :
    buildRichTextContent (parseTwigContent cSrcXY) =
        [Block.paragraph [⟨("A").data, false, false⟩],
          Block.paragraph [⟨("B").data, false, false⟩],
          Block.heading 2 [⟨("H").data, false, false⟩],
          Block.paragraph [⟨("C").data, false, false⟩],
          Block.paragraph [⟨("Z").data, false, false⟩]] ∧
      buildRichTextContent (parseTwigContent cSrcXY) ≠
        [Block.paragraph [⟨("A").data, false, false⟩],
          Block.paragraph [⟨("B").data, false, false⟩],
          Block.heading 2 [⟨("H").data, false, false⟩],
          Block.paragraph [⟨("C").data, false, false⟩],
          Block.paragraph [⟨("L").data, true, false⟩],
          Block.list true
            [[⟨("x").data, false, false⟩], [⟨("y").data, false, false⟩]],
          Block.paragraph [⟨("Z").data, false, false⟩]] :=
  ⟨by decide, by decide⟩

/-- C1, amended: block assembly emits blocks in exact document reading
order — intro paragraphs, then per section a level-2 heading when
non-empty, content paragraphs, per list an optional bold-title paragraph
immediately followed by its list block, additional-content paragraphs,
then each subsection (level-3 heading, content paragraphs, lists,
additional-content paragraphs) — then conclusion paragraphs, with a single
rawHtml paragraph when everything else is empty. A paragraph arises only
from a segment whose trim is non-empty, so no empty-string paragraph is
emitted. The end-to-end scenario holds once the list items are longer than
two characters (`xxx`, `yyy`); one- and two-character items (the spec's
literal `x`, `y`) are silently dropped, and a list whose items were all
dropped is omitted together with its bold-title paragraph. -/
theorem C1_block_assembly :
    (∀ p : ParsedArticle,
        buildRichTextContent p =
          if (mainBlocksOf p).isEmpty ∧ !p.rawHtml.isEmpty then
            [Block.paragraph [⟨p.rawHtml.take 2000, false, false⟩]]
          else mainBlocksOf p) ∧
      (∀ (text : Str) (b : Block), b ∈ paraBlocksOf text →
        ∃ seg, seg ∈ splitOnChar '|' text ∧ (jsTrim seg).isEmpty = false ∧
          b = Block.paragraph (parseInlineHtml (jsTrim seg))) ∧
      buildRichTextContent (parseTwigContent cSrcScenario) =
        [Block.paragraph [⟨("A").data, false, false⟩],
          Block.paragraph [⟨("B").data, false, false⟩],
          Block.heading 2 [⟨("H").data, false, false⟩],
          Block.paragraph [⟨("C").data, false, false⟩],
          Block.paragraph [⟨("L").data, true, false⟩],
          Block.list true
            [[⟨("xxx").data, false, false⟩], [⟨("yyy").data, false, false⟩]],
          Block.paragraph [⟨("Z").data, false, false⟩]] := by
  refine ⟨buildRichTextContent_eq, ?_, by decide⟩
  intro text b hb
  rw [paraBlocksOf_eq_filterMap] at hb
  obtain ⟨seg, hseg, hf⟩ := List.mem_filterMap.mp hb
  refine ⟨seg, hseg, ?_⟩
  unfold paraOpt at hf
  by_cases h : (jsTrim seg).isEmpty
  · simp [h] at hf
  · simp only [h, Bool.not_false, if_true] at hf
    exact ⟨by simpa using h, (Option.some_inj.mp hf).symm⟩

/-- C1, witness: the blank-segment-dropping part at the field `A|B`, whose
first paragraph block arises from the non-blank segment `A`. -/
theorem C1_block_assembly_witness :
    ∃ seg, seg ∈ splitOnChar '|' (("A|B").data) ∧ (jsTrim seg).isEmpty = false ∧
      Block.paragraph (parseInlineHtml (("A").data)) =
        Block.paragraph (parseInlineHtml (jsTrim seg)) :=
  C1_block_assembly.2.1 (("A|B").data) (Block.paragraph (parseInlineHtml (("A").data)))
    (by decide)

/-! ### Membership helpers for the section extractor -/

theorem parseContentSections_mem {h : Str} {s : Section}
    (hs : s ∈ parseContentSections h) :
    ∃ body, sectionsArrayBody h = some body ∧
      ∃ span, span ∈ splitTopLevelObjects body ∧ s = parseSectionStr span := by
  unfold parseContentSections at hs
  cases hb : sectionsArrayBody h with
  | none => rw [hb] at hs; simp at hs
  | some body =>
    rw [hb] at hs
    obtain ⟨span, hspan, heq⟩ := List.mem_map.mp hs
    exact ⟨body, rfl, span, hspan, heq.symm⟩

theorem structuredItem_props {raw it : Str} (h : structuredItemFilter raw = some it) :
    2 < it.length ∧ it ≠ (("true").data) ∧ it ≠ (("false").data) := by
  unfold structuredItemFilter at h
  split at h
  · obtain rfl := Option.some_inj.mp h
    rename_i hcond
    exact ⟨hcond.2.2, hcond.1, hcond.2.1⟩
  · exact absurd h (by simp)

theorem legacyItem_props {raw it : Str} (h : legacyItemFilter raw = some it) :
    2 < it.length := by
  unfold legacyItemFilter at h
  split at h
  · obtain rfl := Option.some_inj.mp h
    rename_i hcond
    exact hcond
  · exact absurd h (by simp)

theorem sectionLists_props (str : Str) :
    ∀ l ∈ sectionLists str,
      l.items ≠ [] ∧ ∀ it ∈ l.items,
        2 < it.length ∧ it ≠ (("true").data) ∧ it ≠ (("false").data) := by
  intro l hl
  unfold sectionLists at hl
  cases hb : arrayBodyAfterKey str (quoted (("lists").data)) with
  | none => rw [hb] at hl; simp at hl
  | some listsStr =>
    rw [hb] at hl
    obtain ⟨hmem, hcond⟩ := List.mem_filter.mp hl
    refine ⟨by simpa using hcond, ?_⟩
    obtain ⟨span, _, heq⟩ := List.mem_map.mp hmem
    intro it hit
    rw [← heq] at hit
    unfold parseListObj at hit
    simp only at hit
    cases hib : arrayBodyAfterKey span (quoted (("items").data)) with
    | none => rw [hib] at hit; simp at hit
    | some body =>
      rw [hib] at hit
      obtain ⟨raw, _, hraw⟩ := List.mem_filterMap.mp hit
      exact structuredItem_props hraw

theorem subLegacyLists_mem (str : Str) :
    ∀ l ∈ subLegacyLists str,
      l.title = [] ∧ l.ordered = false ∧ l.items ≠ [] ∧
        ∀ it ∈ l.items, 2 < it.length := by
  intro l hl
  unfold subLegacyLists at hl
  cases hb : simpleItemsBody str with
  | none => rw [hb] at hl; simp at hl
  | some body =>
    rw [hb] at hl
    simp only at hl
    split at hl
    · simp at hl
    · rename_i hne
      obtain rfl : l = ⟨[], false, (itemScanGo body.length body).filterMap legacyItemFilter⟩ := by
        simpa using hl
      refine ⟨rfl, rfl, by simpa using hne, ?_⟩
      intro it hit
      obtain ⟨raw, _, hraw⟩ := List.mem_filterMap.mp hit
      exact legacyItem_props hraw

theorem subLegacyLists_len (str : Str) : (subLegacyLists str).length ≤ 1 := by
  unfold subLegacyLists
  cases simpleItemsBody str with
  | none => simp
  | some body =>
    simp only
    split <;> simp

theorem parseSubStr_lists (subStr : Str) :
    (sectionLists subStr ≠ [] → (parseSubStr subStr).lists = sectionLists subStr) ∧
      (sectionLists subStr = [] → (parseSubStr subStr).lists = subLegacyLists subStr) := by
  constructor
  · intro h
    simp [parseSubStr, List.isEmpty_iff, h]
  · intro h
    simp [parseSubStr, List.isEmpty_iff, h]

/-! ### C5 — the legacy bare-items fallback -/

/-- C5, counterexample: a top-level section whose object span carries a
bare `items` array (and no `lists` field) gets no `ContentList` at all —
the legacy fallback exists only in the subsection path (lines 797-812),
not in the section path — where the claim promises exactly one unnamed
unordered `ContentList`. -/
theorem C5_section_bare_items_ignored :
    parseContentSections cC5Span = [{ heading := ("Head").data }] ∧
      (parseContentSections cC5Span).map (fun s => s.lists) = [[]] :=
  ⟨by decide, by decide⟩

/-- C5, amended: the legacy bare-items fallback exists for subsections
only. There, the structured `lists` field wins whenever it yields at least
one list; only when it yields none is the bare `items` regex consulted,
and it produces at most one `ContentList`, always with empty title and
`ordered = false` (and only when some item survives the length filter —
otherwise no list at all). Top-level sections never consult a legacy path. -/
theorem C5_subsection_legacy :
    (∀ subStr : Str,
        (sectionLists subStr ≠ [] → (parseSubStr subStr).lists = sectionLists subStr) ∧
        (sectionLists subStr = [] → (parseSubStr subStr).lists = subLegacyLists subStr) ∧
        (∀ l ∈ subLegacyLists subStr,
          l.title = [] ∧ l.ordered = false ∧ l.items ≠ []) ∧
        (subLegacyLists subStr).length ≤ 1) ∧
      (parseSubStr cC5Sub).lists = [⟨[], false, [("abcd").data]⟩] := by
  refine ⟨?_, by decide⟩
  intro subStr
  refine ⟨(parseSubStr_lists subStr).1, (parseSubStr_lists subStr).2, ?_,
    subLegacyLists_len subStr⟩
  intro l hl
  obtain ⟨h1, h2, h3, _⟩ := subLegacyLists_mem subStr l hl
  exact ⟨h1, h2, h3⟩

/-- C5, witness: on the bare-items subsection object the structured field
is empty and the legacy list is taken. -/
theorem C5_subsection_legacy_witness :
    (parseSubStr cC5Sub).lists = subLegacyLists cC5Sub :=
  (C5_subsection_legacy.1 cC5Sub).2.1 (by decide)

/-! ### C6 — empty sections -/

/-- C6, counterexample: the sections array `[ {} ]` produces a `Section`
with every field absent — the extractor emits one `Section` per top-level
object span whether or not any recognized field is present. -/
theorem C6_empty_section_emitted :
    parseContentSections cC6Span = [({} : Section)] ∧
      ({} : Section).id = [] ∧ ({} : Section).heading = [] ∧
      ({} : Section).content = [] ∧ ({} : Section).additionalContent = [] ∧
      ({} : Section).lists = [] ∧ ({} : Section).subsections = [] ∧
      ({} : Section).image = none :=
  ⟨by decide, rfl, rfl, rfl, rfl, rfl, rfl, rfl⟩

/-- C6, amended: the extractor emits exactly the image of the top-level
object spans of the sections array — each emitted `Section` is
`parseSectionStr` of a span that occurs in the source, so a fully empty
`Section` appears exactly when the source holds an object span (such as
`{}`) from which every recognized field extracts empty. -/
theorem C6_sections_from_spans (h : Str) (s : Section)
    (hs : s ∈ parseContentSections h) :
    ∃ body, sectionsArrayBody h = some body ∧
      ∃ span, span ∈ splitTopLevelObjects body ∧ s = parseSectionStr span :=
  parseContentSections_mem hs

/-- C6, witness: the empty section of the `[ {} ]` source arises from the
span `{}`. -/
theorem C6_sections_from_spans_witness :
    ∃ body, sectionsArrayBody cC6Span = some body ∧
      ∃ span, span ∈ splitTopLevelObjects body ∧ ({} : Section) = parseSectionStr span :=
  C6_sections_from_spans cC6Span {} (by decide)

/-! ### C10 — list items invariants -/

/-- C10, counterexample: the legacy bare-items path filters only by
length, so the boolean literal token `'true'` (four characters) survives
into a retained `ContentList` — it is not "silently dropped" there. -/
theorem C10_legacy_keeps_boolean :
    (parseContentSections cC10Span).map (fun s => s.subsections.map (fun sub => sub.lists)) =
        [[[⟨[], false, [("true").data]⟩]]] ∧
      ∃ s ∈ parseContentSections cC10Span, ∃ sub ∈ s.subsections, ∃ l ∈ sub.lists,
        ("true").data ∈ l.items :=
  ⟨by decide, by decide⟩

/-- C10, amended: every `ContentList` retained anywhere in the output has
a non-empty items sequence, and every retained item is longer than two
characters after unescaping. Boolean literal tokens are additionally
dropped by the structured `lists` extraction — so they never appear in a
top-level section's lists — but the legacy bare-items path of subsections
filters only by length and can retain them. -/
theorem C10_items_invariant (h : Str) :
    ∀ s ∈ parseContentSections h,
      (∀ l ∈ s.lists, l.items ≠ [] ∧ ∀ it ∈ l.items,
        2 < it.length ∧ it ≠ (("true").data) ∧ it ≠ (("false").data)) ∧
      (∀ sub ∈ s.subsections, ∀ l ∈ sub.lists,
        l.items ≠ [] ∧ ∀ it ∈ l.items, 2 < it.length) := by
  intro s hs
  obtain ⟨body, _, span, _, rfl⟩ := parseContentSections_mem hs
  constructor
  · intro l hl
    exact sectionLists_props span l (by simpa [parseSectionStr] using hl)
  · intro sub hsub l hl
    have hsub' : sub ∈ sectionSubsections span := by simpa [parseSectionStr] using hsub
    unfold sectionSubsections at hsub'
    cases hb : arrayBodyAfterKey span (quoted (("subsections").data)) with
    | none => rw [hb] at hsub'; simp at hsub'
    | some subsStr =>
      rw [hb] at hsub'
      obtain ⟨subSpan, _, heq⟩ := List.mem_map.mp hsub'
      rw [← heq] at hl
      by_cases hstruct : sectionLists subSpan = []
      · rw [(parseSubStr_lists subSpan).2 hstruct] at hl
        obtain ⟨_, _, h3, h4⟩ := subLegacyLists_mem subSpan l hl
        exact ⟨h3, h4⟩
      · rw [(parseSubStr_lists subSpan).1 hstruct] at hl
        obtain ⟨h1, h2⟩ := sectionLists_props subSpan l hl
        exact ⟨h1, fun it hit => (h2 it hit).1⟩

/-! ### Matcher facts for C3 -/

theorem expectLit_append (pat x : Str) : expectLit pat (pat ++ x) = some x := by
  have h : pat.isPrefixOf (pat ++ x) = true :=
    List.isPrefixOf_iff_prefix.mpr (List.prefix_append pat x)
  simp [expectLit, h]

theorem expectLit_sub {pat s r : Str} (h : expectLit pat s = some r) :
    pat ⊆ s ∧ r ⊆ s := by
  unfold expectLit at h
  by_cases hp : pat.isPrefixOf s
  · refine ⟨(List.isPrefixOf_iff_prefix.mp hp).subset, ?_⟩
    have : r = s.drop pat.length := by simp [hp] at h; exact h.symm
    rw [this]
    exact List.drop_subset _ s
  · simp [hp] at h

theorem expectLit_none_of {c : Char} {pat s : Str} (hc : c ∈ pat) (hs : c ∉ s) :
    expectLit pat s = none := by
  cases he : expectLit pat s with
  | none => rfl
  | some r => exact absurd ((expectLit_sub he).1 hc) hs

theorem expectLit_cons_ne {a b : Char} {p t : Str} (h : a ≠ b) :
    expectLit (a :: p) (b :: t) = none := by
  have : ((a :: p).isPrefixOf (b :: t)) = (a == b && p.isPrefixOf t) := rfl
  simp [expectLit, this, beq_eq_false_iff_ne.mpr h]

theorem skipWs_sub (s : Str) : skipWs s ⊆ s := (s.dropWhile_sublist wsChar).subset

theorem skipWs_not_ws {c : Char} (h : wsChar c = false) (t : Str) :
    skipWs (c :: t) = c :: t := by
  rw [skipWs, List.dropWhile_cons]
  simp [h]

theorem skipWs_ws {c : Char} (h : wsChar c = true) (t : Str) :
    skipWs (c :: t) = skipWs t := by
  rw [skipWs, List.dropWhile_cons]
  simp [h, skipWs]

theorem ws1_some {c : Char} (h : wsChar c = true) (t : Str) :
    ws1 (c :: t) = some (skipWs t) := by
  simp [ws1, h]

theorem ws1_sub {s r : Str} (h : ws1 s = some r) : r ⊆ s := by
  cases s with
  | nil => simp [ws1] at h
  | cons c rest =>
    unfold ws1 at h
    by_cases hw : wsChar c
    · simp only [hw, if_true] at h
      obtain rfl := Option.some_inj.mp h
      exact fun x hx => List.mem_cons_of_mem _ (skipWs_sub rest hx)
    · simp [hw] at h

theorem twigBlockTailAt_none_of {c : Char} {kw s : Str} (hc : c ∈ kw) (hs : c ∉ s) :
    twigBlockTailAt kw s = none := by
  unfold twigBlockTailAt
  cases h1 : expectLit (("\x7b%").data) s with
  | none => rfl
  | some r1 =>
    have hr1 : r1 ⊆ s := (expectLit_sub h1).2
    cases h2 : expectLit (("block").data) (skipWs r1) with
    | none => simp [h2]
    | some r2 =>
      have hr2 : r2 ⊆ s := fun x hx => hr1 (skipWs_sub r1 ((expectLit_sub h2).2 hx))
      cases h3 : ws1 r2 with
      | none => simp [h2, h3]
      | some r3 =>
        have hr3 : r3 ⊆ s := fun x hx => hr2 (ws1_sub h3 hx)
        have h4 : expectLit kw r3 = none :=
          expectLit_none_of hc (fun hmem => hs (hr3 hmem))
        simp [h2, h3, h4]

theorem firstMatch_of_some {α : Type} {f : Str → Option α} {s : Str} {a : α}
    (h : f s = some a) : firstMatch f s = some a := by
  cases s with
  | nil => simpa [firstMatch] using h
  | cons c rest => unfold firstMatch; rw [h]

theorem firstMatch_none_chain {α : Type} {f : Str → Option α} {c : Char}
    (hf : ∀ t : Str, c ∉ t → f t = none) :
    ∀ {s : Str}, c ∉ s → firstMatch f s = none := by
  intro s
  induction s with
  | nil => intro h; simpa [firstMatch] using hf [] h
  | cons a rest ih =>
    intro h
    unfold firstMatch
    rw [hf _ h]
    exact ih (fun hm => h (List.mem_cons_of_mem _ hm))

theorem findSubAux_none_of {c : Char} {pat : Str} (hc : c ∈ pat) :
    ∀ {text : Str} (i : Nat), c ∉ text → findSubAux pat text i = none := by
  intro text
  induction text with
  | nil =>
    intro i _
    have : pat ≠ [] := fun he => by simp [he] at hc
    simp [findSubAux, this]
  | cons a rest ih =>
    intro i h
    unfold findSubAux
    have hp : pat.isPrefixOf (a :: rest) = false := by
      cases hpp : pat.isPrefixOf (a :: rest)
      · rfl
      · exact absurd ((List.isPrefixOf_iff_prefix.mp hpp).subset hc) h
    simp only [hp, Bool.false_eq_true, if_false]
    exact ih (i + 1) (fun hm => h (List.mem_cons_of_mem _ hm))

theorem jsIndexOf_neg_one {hay pat : Str} (h : findSubAux pat hay 0 = none) :
    jsIndexOf hay pat 0 = -1 := by
  simp [jsIndexOf, h]

theorem not_mem_cSrcLong {c : Char} (h1 : c ∉ cPreLong) (h2 : c ≠ 'a')
    (h3 : c ∉ cPostLong) : c ∉ cSrcLong := by
  intro hm
  simp only [cSrcLong, List.mem_append, List.mem_replicate] at hm
  rcases hm with (hm | hm) | hm
  · exact h1 hm
  · exact h2 hm.2
  · exact h3 hm

theorem marker1_absent : jsIndexOf cSrcLong (("\x7b% set article_data").data) 0 = -1 :=
  jsIndexOf_neg_one (findSubAux_none_of (c := 's') (by decide) 0
    (not_mem_cSrcLong (by decide) (by decide) (by decide)))

theorem marker2_absent : jsIndexOf cSrcLong (("blog_macros.blog_content(").data) 0 = -1 :=
  jsIndexOf_neg_one (findSubAux_none_of (c := '.') (by decide) 0
    (not_mem_cSrcLong (by decide) (by decide) (by decide)))

theorem lazyFindP_skip {p : Str → Option Str} {c : Char}
    (hc : ∀ t : Str, p (c :: t) = none) {tail cap rest : Str}
    (ht : lazyFindP p tail = some (cap, rest)) :
    ∀ n, lazyFindP p (List.replicate n c ++ tail) =
      some (List.replicate n c ++ cap, rest) := by
  intro n
  induction n with
  | zero => simpa using ht
  | succ m ih =>
    rw [List.replicate_succ, List.cons_append]
    unfold lazyFindP
    rw [hc]
    simp [ih, List.replicate_succ]

theorem endblockPart_cons {c : Char} (h : c ≠ '\x7b') (t : Str) :
    endblockPart (c :: t) = none := by
  have he : expectLit (("\x7b%").data) (c :: t) = none :=
    expectLit_cons_ne (Ne.symm h)
  simp [endblockPart, he]

theorem stripPairGo_replicate {o1 o2 c1 c2 ch : Char} (h : ch ≠ o1) :
    ∀ (n fuel : Nat), n ≤ fuel →
      stripPairGo o1 o2 c1 c2 fuel (List.replicate n ch) = List.replicate n ch := by
  intro n
  induction n with
  | zero => intro fuel _; cases fuel <;> simp [stripPairGo]
  | succ m ih =>
    intro fuel hle
    obtain ⟨f, rfl⟩ : ∃ f, fuel = f + 1 := ⟨fuel - 1, by omega⟩
    cases m with
    | zero => simp [stripPairGo]
    | succ k =>
      rw [List.replicate_succ, List.replicate_succ]
      unfold stripPairGo
      rw [if_neg (fun hand => h hand.1), ← List.replicate_succ,
        ih f (by omega), List.replicate_succ]

theorem jsTrim_replicate {c : Char} (h : wsChar c = false) (n : Nat) :
    jsTrim (List.replicate n c) = List.replicate n c := by
  have hd : ∀ m, (List.replicate m c).dropWhile wsChar = List.replicate m c := by
    intro m
    cases m with
    | zero => rfl
    | succ k =>
      rw [List.replicate_succ, List.dropWhile_cons]
      simp [h]
  unfold jsTrim
  rw [hd, List.reverse_replicate, hd, List.reverse_replicate]

theorem metaBase_fields (c : Str) :
    (metaBase c).introText = [] ∧ (metaBase c).contentSections = [] ∧
      (metaBase c).conclusion = [] ∧ (metaBase c).rawHtml = [] := by
  unfold metaBase
  cases twigBlockMatch (("title").data) c <;> cases firstMatch metaDescAt c <;> simp

theorem lazyFindP_cSrcLong :
    lazyFindP endblockPart (List.replicate 2001 'a' ++ cPostLong) =
      some (List.replicate 2001 'a', (" %\x7d").data) := by
  have base : lazyFindP endblockPart cPostLong = some ([], (" %\x7d").data) := by decide
  have := lazyFindP_skip (fun t => endblockPart_cons (c := 'a') (by decide) t) base 2001
  rw [List.append_nil] at this
  exact this

theorem twigBlockTailAt_cSrcLong :
    twigBlockTailAt (("workarea_content").data) cSrcLong = some (List.replicate 2001 'a') := by
  have e0 : cSrcLong =
      (("\x7b%").data) ++
        (((" block workarea_content %\x7d").data) ++ (List.replicate 2001 'a' ++ cPostLong)) := by
    unfold cSrcLong
    rw [show cPreLong = ("\x7b%").data ++ ((" block workarea_content %\x7d").data) from by decide]
    exact List.append_assoc _ _ _
  have e2 : skipWs (((" block workarea_content %\x7d").data) ++
      (List.replicate 2001 'a' ++ cPostLong)) =
      (("block workarea_content %\x7d").data) ++ (List.replicate 2001 'a' ++ cPostLong) := by
    show skipWs (' ' :: ((("block workarea_content %\x7d").data) ++ _)) = _
    rw [skipWs_ws (by decide)]
    show skipWs ('b' :: ((("lock workarea_content %\x7d").data) ++ _)) = _
    rw [skipWs_not_ws (by decide)]
    rfl
  have e3 : (("block workarea_content %\x7d").data) ++
        (List.replicate 2001 'a' ++ cPostLong) =
      (("block").data) ++
        (((" workarea_content %\x7d").data) ++ (List.replicate 2001 'a' ++ cPostLong)) := by
    rw [← List.append_assoc]
    rfl
  have e4 : ws1 (((" workarea_content %\x7d").data) ++
      (List.replicate 2001 'a' ++ cPostLong)) =
      some ((("workarea_content %\x7d").data) ++ (List.replicate 2001 'a' ++ cPostLong)) := by
    show ws1 (' ' :: ((("workarea_content %\x7d").data) ++ _)) = _
    rw [ws1_some (by decide)]
    show some (skipWs ('w' :: ((("orkarea_content %\x7d").data) ++ _))) = _
    rw [skipWs_not_ws (by decide)]
    rfl
  have e5 : (("workarea_content %\x7d").data) ++ (List.replicate 2001 'a' ++ cPostLong) =
      (("workarea_content").data) ++
        (((" %\x7d").data) ++ (List.replicate 2001 'a' ++ cPostLong)) := by
    rw [← List.append_assoc]
    rfl
  have e6 : skipWs (((" %\x7d").data) ++ (List.replicate 2001 'a' ++ cPostLong)) =
      (("%\x7d").data) ++ (List.replicate 2001 'a' ++ cPostLong) := by
    show skipWs (' ' :: ((("%\x7d").data) ++ _)) = _
    rw [skipWs_ws (by decide)]
    show skipWs ('%' :: ((("\x7d").data) ++ _)) = _
    rw [skipWs_not_ws (by decide)]
    rfl
  unfold twigBlockTailAt
  rw [e0]
  simp only [expectLit_append, Option.bind_eq_bind, Option.some_bind, e2, e3, e4, e5, e6,
    lazyFindP_cSrcLong]
  rfl

theorem twigBlockMatch_cSrcLong :
    twigBlockMatch (("workarea_content").data) cSrcLong = some (List.replicate 2001 'a') := by
  unfold twigBlockMatch
  exact firstMatch_of_some twigBlockTailAt_cSrcLong

theorem parseTwigContent_cSrcLong :
    parseTwigContent cSrcLong =
      { metaBase cSrcLong with rawHtml := List.replicate 2001 'a' } := by
  have h1 : stripMoustache (List.replicate 2001 'a') = List.replicate 2001 'a' := by
    unfold stripMoustache stripPair
    rw [List.length_replicate]
    exact stripPairGo_replicate (by decide) 2001 2001 le_rfl
  have h2 : stripTwigTag (List.replicate 2001 'a') = List.replicate 2001 'a' := by
    unfold stripTwigTag stripPair
    rw [List.length_replicate]
    exact stripPairGo_replicate (by decide) 2001 2001 le_rfl
  unfold parseTwigContent
  rw [marker1_absent, marker2_absent]
  simp only [ne_eq, not_true_eq_false, if_false, reduceCtorEq]
  unfold extractFallbackContent
  rw [twigBlockMatch_cSrcLong]
  simp only [h1, h2]
  rw [jsTrim_replicate (c := 'a') (by decide) 2001]

/-! ### C3 — the raw fallback path -/

/-- C3, counterexample: a fallback region of 2001 characters is stored in
`rawHtml` in full — `extractFallbackContent` strips and trims but never
truncates, so `rawHtml` is not "truncated to a bounded length" (its length
exceeds 2000, the code's only truncation bound); only the single fallback
paragraph built from it is cut to 2000 characters. -/
theorem C3_rawHtml_not_truncated :
    (parseTwigContent cSrcLong).rawHtml = List.replicate 2001 'a' ∧
      2000 < (parseTwigContent cSrcLong).rawHtml.length ∧
      buildRichTextContent (parseTwigContent cSrcLong) =
        [Block.paragraph [⟨List.replicate 2000 'a', false, false⟩]] := by
  have hraw : (parseTwigContent cSrcLong).rawHtml = List.replicate 2001 'a' := by
    rw [parseTwigContent_cSrcLong]
  refine ⟨hraw, by rw [hraw]; simp, ?_⟩
  rw [buildRichTextContent_eq]
  have hf := metaBase_fields cSrcLong
  have hmain : mainBlocksOf (parseTwigContent cSrcLong) = [] := by
    rw [parseTwigContent_cSrcLong]
    unfold mainBlocksOf
    simp [hf.1, hf.2.1, hf.2.2.1, paraBlocksOf_nil]
  rw [hmain, hraw]
  simp [List.take_replicate]

/-- C3, amended: when neither the named-object marker nor the
positional-call marker occurs in the source, the dispatcher
deterministically runs the raw fallback, which stores the designated
content region — directives stripped, trimmed, but *not* truncated — in
`rawHtml`; block conversion of an article whose structured fields are all
empty and whose `rawHtml` is non-empty yields exactly one fallback
paragraph holding the first 2000 characters of `rawHtml`; and the
`hello world` source yields `rawHtml = "hello world"` and that single
paragraph. -/
theorem C3_fallback_dispatch :
    (∀ content : Str,
        jsIndexOf content (("\x7b% set article_data").data) 0 = -1 →
        jsIndexOf content (("blog_macros.blog_content(").data) 0 = -1 →
        parseTwigContent content = extractFallbackContent content (metaBase content)) ∧
      (∀ p : ParsedArticle, p.introText = [] → p.contentSections = [] →
        p.conclusion = [] → p.rawHtml ≠ [] →
        buildRichTextContent p = [Block.paragraph [⟨p.rawHtml.take 2000, false, false⟩]]) ∧
      (parseTwigContent cSrcHello).rawHtml = (("hello world").data) ∧
      buildRichTextContent (parseTwigContent cSrcHello) =
        [Block.paragraph [⟨(("hello world").data), false, false⟩]] := by
  refine ⟨?_, ?_, by decide, by decide⟩
  · intro content h1 h2
    unfold parseTwigContent
    rw [h1, h2]
    simp
  · intro p hi hc hco hr
    rw [buildRichTextContent_eq]
    have hmain : mainBlocksOf p = [] := by
      unfold mainBlocksOf
      simp [hi, hc, hco, paraBlocksOf_nil]
    rw [hmain]
    simp [List.isEmpty_iff, hr]

/-- C3, witness: the dispatch branch at the `hello world` source, where
neither marker occurs. -/
theorem C3_fallback_dispatch_witness :
    parseTwigContent cSrcHello = extractFallbackContent cSrcHello (metaBase cSrcHello) :=
  C3_fallback_dispatch.1 cSrcHello (by decide) (by decide)

/-- C10, witness: the invariant at the legacy-boolean source, for its
single section. -/
theorem C10_items_invariant_witness :
    (∀ l ∈ (({ subsections := [{ lists := [⟨[], false, [("true").data]⟩] }] } : Section)).lists,
        l.items ≠ [] ∧ ∀ it ∈ l.items,
          2 < it.length ∧ it ≠ (("true").data) ∧ it ≠ (("false").data)) ∧
      (∀ sub ∈ (({ subsections := [{ lists := [⟨[], false, [("true").data]⟩] }] } : Section)).subsections,
        ∀ l ∈ sub.lists, l.items ≠ [] ∧ ∀ it ∈ l.items, 2 < it.length) :=
  C10_items_invariant cC10Span
    { subsections := [{ lists := [⟨[], false, [("true").data]⟩] }] } (by decide)

end Blog
